import Mathlib

/-!
Formal model of the telegram-to-notion extraction pipeline.

The definitions below are a shallow embedding of the repository code:

* the message filter, topic-merge, topic sort and multi-chat loop of
  TelegramToNotionService / TelegramClient (src/TelegramClient.ts), and
* the NotionClient batch-upsert, schema reconciliation and statistics
  logic (src/NotionClient.ts).

Network calls are modelled as explicit state passing over a database
state; timestamps are integers (epoch seconds for Telegram messages,
epoch milliseconds for JavaScript Date values).
-/

namespace TelegramToNotion

/-- Whitespace as recognised by the JavaScript String.prototype.trim:
ASCII whitespace, NBSP, the Unicode space separators, line and paragraph
separators and the BOM. -/
def jsIsWhitespace (c : Char) : Bool :=
  c.val == 0x09 || c.val == 0x0A || c.val == 0x0B || c.val == 0x0C ||
  c.val == 0x0D || c.val == 0x20 || c.val == 0xA0 || c.val == 0x1680 ||
  (decide (0x2000 ≤ c.val) && decide (c.val ≤ 0x200A)) ||
  c.val == 0x2028 || c.val == 0x2029 || c.val == 0x202F ||
  c.val == 0x205F || c.val == 0x3000 || c.val == 0xFEFF

/-- JavaScript String.prototype.trim: drop leading and trailing whitespace. -/
def jsTrim (s : String) : String :=
  String.mk ((((s.data.dropWhile jsIsWhitespace).reverse).dropWhile jsIsWhitespace).reverse)

/-- Media descriptor attached to a Telegram message (MessageInfo.media:
the source maps msg.media to a record with its class name, or null). -/
structure MediaInfo where
  type : String
deriving DecidableEq

/-- One Telegram message as mapped by TelegramClient.getMessages
(MessageInfo in src/types.ts). The date field is in epoch seconds. -/
structure MessageInfo where
  id : Int
  message : Option String
  date : Int
  isOutgoing : Bool
  media : Option MediaInfo
  topicId : Option Int
deriving DecidableEq

/-- The optional date-range filter of ExtractionOptions.dateFilter.
Bounds are JavaScript Date values, i.e. epoch milliseconds. -/
structure DateFilter where
  fromDate : Option Int
  toDate : Option Int
deriving DecidableEq

/-- The filter fields consumed by TelegramToNotionService.filterMessages. -/
structure MessageFilters where
  includeOutgoing : Bool
  includeMedia : Bool
  dateFilter : Option DateFilter
deriving DecidableEq

/-- The trailing content test of filterMessages: the message text must be
present (truthy) and have non-empty trim. -/
def hasTextContent : Option String → Bool
  | none => false
  | some s => !(s == "") && decide (0 < (jsTrim s).length)

/-- The lower date-bound test of filterMessages: true when a lower bound
is set and the message timestamp (milliseconds) is strictly below it. -/
def beforeLowerBound (fromDate : Option Int) (t : Int) : Bool :=
  match fromDate with
  | some a => decide (t < a)
  | none => false

/-- The upper date-bound test of filterMessages: true when an upper bound
is set and the message timestamp (milliseconds) is strictly above it. -/
def afterUpperBound (toDate : Option Int) (t : Int) : Bool :=
  match toDate with
  | some b => decide (b < t)
  | none => false

/-- The per-message predicate of TelegramToNotionService.filterMessages:
drop outgoing messages when includeOutgoing is false, drop media messages
when includeMedia is false, drop messages outside the date range, and
finally keep only messages with non-blank text. -/
def messagePasses (filters : MessageFilters) (message : MessageInfo) : Bool :=
  if !filters.includeOutgoing && message.isOutgoing then false
  else if !filters.includeMedia && message.media.isSome then false
  else
    match filters.dateFilter with
    | some df =>
      if beforeLowerBound df.fromDate (message.date * 1000) then false
      else if afterUpperBound df.toDate (message.date * 1000) then false
      else hasTextContent message.message
    | none => hasTextContent message.message

/-- TelegramToNotionService.filterMessages. -/
def filterMessages (messages : List MessageInfo) (filters : MessageFilters) :
    List MessageInfo :=
  messages.filter (messagePasses filters)

/-- The comparator of the topic-merge path of extractChatToNotion:
sort merged topic messages by date descending. JavaScript sort with the
comparator (a, b) => b.date - a.date is a stable sort for this total
preorder, modelled by insertion sort. -/
def sortMessagesByDateDesc (messages : List MessageInfo) : List MessageInfo :=
  List.insertionSort (fun a b => b.date ≤ a.date) messages

/-- The topicFilter.topicIds branch of extractChatToNotion: fetch each
topic (a fetch returns a per-topic message list), push all results into
one list, sort by date descending, and truncate to messageLimit. -/
def extractTopicMessages (fetchTopic : Int → List MessageInfo)
    (topicIds : List Int) (messageLimit : Nat) : List MessageInfo :=
  let telegramMessages :=
    topicIds.foldl (fun acc topicId => acc ++ fetchTopic topicId) []
  (sortMessagesByDateDesc telegramMessages).take messageLimit

/-- One topic of a forum chat (TopicInfo); lastMessageDate is an optional
JavaScript Date, modelled in epoch milliseconds. -/
structure TopicInfo where
  id : Int
  title : String
  messageCount : Int
  lastMessageDate : Option Int
deriving DecidableEq

/-- The comparator of TelegramClient.getTopics: most recent last-activity
first; a topic with a date sorts before one without; when neither has a
date, fall back to descending id. -/
def topicCmp (a b : TopicInfo) : Int :=
  match a.lastMessageDate, b.lastMessageDate with
  | some da, some db => db - da
  | some _, none => -1
  | none, some _ => 1
  | none, none => b.id - a.id

/-- Non-positive comparator result: a may be placed before b. -/
def topicLe (a b : TopicInfo) : Prop := topicCmp a b ≤ 0

instance topicLe.decRel : DecidableRel topicLe :=
  fun a b => inferInstanceAs (Decidable (topicCmp a b ≤ 0))

theorem topicCmp_neg (a b : TopicInfo) : topicCmp b a = -topicCmp a b := by
  obtain ⟨ia, ta, ca, da⟩ := a
  obtain ⟨ib, tb, cb, db⟩ := b
  unfold topicCmp
  cases da <;> cases db <;> simp

instance topicLe.isTotal : IsTotal TopicInfo topicLe where
  total a b := by
    unfold topicLe
    have h := topicCmp_neg a b
    omega

instance topicLe.isTrans : IsTrans TopicInfo topicLe where
  trans a b c hab hbc := by
    obtain ⟨ia, ta, ca, da⟩ := a
    obtain ⟨ib, tb, cb, db⟩ := b
    obtain ⟨ic, tc, cc, dc⟩ := c
    unfold topicLe topicCmp at hab hbc ⊢
    cases da <;> cases db <;> cases dc <;> simp_all <;> omega

/-- The final sort of TelegramClient.getTopics (JavaScript stable sort by
topicCmp, modelled by insertion sort). -/
def sortTopics (topics : List TopicInfo) : List TopicInfo :=
  List.insertionSort topicLe topics

/-- The pairwise order the specification claims for the topic list:
last-activity descending, dateless topics last, and every tie broken by
descending id (also between two topics sharing the same date). -/
def claimTopicLe (a b : TopicInfo) : Bool :=
  match a.lastMessageDate, b.lastMessageDate with
  | some da, some db => decide (db < da) || (decide (da = db) && decide (b.id ≤ a.id))
  | some _, none => true
  | none, some _ => false
  | none, none => decide (b.id ≤ a.id)

/-- Per-chat extraction result (ExtractionResult, without the records). -/
structure ExtractionResult where
  chatName : String
  chatId : String
  messageCount : Nat
deriving DecidableEq

/-- The per-chat loop of extractMultipleChatsToNotion: each chat is
extracted in order; a failure is caught and logged and the loop
continues; successful results are appended. -/
def extractionLoop (extract : String → Except String ExtractionResult) :
    List String → List ExtractionResult → List ExtractionResult
  | [], results => results
  | chatId :: rest, results =>
    match extract chatId with
    | .ok r => extractionLoop extract rest (results ++ [r])
    | .error _ => extractionLoop extract rest results

/-- TelegramToNotionService.extractMultipleChatsToNotion: the connection
phase may fail (and then propagates); afterwards the per-chat loop never
raises. The per-chat extraction is abstracted as a function from chat id
to a fallible result. -/
def extractMultipleChatsToNotion (connect : Except String Unit)
    (extract : String → Except String ExtractionResult)
    (chatIds : List String) : Except String (List ExtractionResult) :=
  match connect with
  | .error e => .error e
  | .ok _ => .ok (extractionLoop extract chatIds [])

/-- The property the message filter keys its final test on, as worded by
the specification: the text is absent, empty, or whitespace-only. -/
def blankText : Option String → Bool
  | none => true
  | some s => s.data.all jsIsWhitespace

theorem messagePasses_hasText {filters : MessageFilters} {m : MessageInfo}
    (h : messagePasses filters m = true) : hasTextContent m.message = true := by
  unfold messagePasses at h
  split at h
  · exact absurd h (by simp)
  · split at h
    · exact absurd h (by simp)
    · split at h
      · split at h
        · exact absurd h (by simp)
        · split at h
          · exact absurd h (by simp)
          · exact h
      · exact h

theorem blankText_hasTextContent {t : Option String} (h : blankText t = true) :
    hasTextContent t = false := by
  cases t with
  | none => rfl
  | some s =>
    have hws : s.data.all jsIsWhitespace = true := h
    have hdrop : s.data.dropWhile jsIsWhitespace = [] :=
      List.dropWhile_eq_nil_iff.mpr (by simpa [List.all_eq_true] using hws)
    have htrim : jsTrim s = "" := by
      simp [jsTrim, hdrop]
    simp [hasTextContent, htrim]

/-- Claim C2: a SourceMessage whose text is absent, empty, or
whitespace-only is never kept by the message filter of extractChat,
whatever the includeMedia, includeOutgoing and date-filter options are:
the content-emptiness rule is unconditional. -/
theorem filterMessages_excludes_blank_text
    (filters : MessageFilters) (messages : List MessageInfo) (m : MessageInfo)
    (hblank : blankText m.message = true) :
    m ∉ filterMessages messages filters := by
  intro hmem
  have hpass : messagePasses filters m = true := (List.mem_filter.mp hmem).2
  have htext := messagePasses_hasText hpass
  rw [blankText_hasTextContent hblank] at htext
  exact Bool.false_ne_true htext

/-- A caption-less photo message, and options that keep everything. -/
def msgBlankPhoto : MessageInfo :=
  { id := 2, message := some "", date := 101, isOutgoing := false,
    media := some { type := "Photo" }, topicId := none }

def filtersKeepAll : MessageFilters :=
  { includeOutgoing := true, includeMedia := true, dateFilter := none }

theorem filterMessages_excludes_blank_text_witness :
    msgBlankPhoto ∉ filterMessages [msgBlankPhoto] filtersKeepAll :=
  filterMessages_excludes_blank_text filtersKeepAll [msgBlankPhoto]
    msgBlankPhoto (by decide)

/-- Claim C8: with the other filter conditions satisfied, the date-range
filter keeps a message exactly when every set bound is satisfied
inclusively: a lower bound admits timestamps at or above it and an upper
bound admits timestamps at or below it (each bound optional), so a
message exactly at a bound is kept and one a second outside is dropped. -/
theorem date_filter_inclusive_bounds
    (filters : MessageFilters) (m : MessageInfo) (df : DateFilter)
    (hdf : filters.dateFilter = some df)
    (htext : hasTextContent m.message = true)
    (hout : filters.includeOutgoing = true ∨ m.isOutgoing = false)
    (hmedia : filters.includeMedia = true ∨ m.media = none) :
    messagePasses filters m = true ↔
      ((∀ a, df.fromDate = some a → a ≤ m.date * 1000) ∧
       (∀ b, df.toDate = some b → m.date * 1000 ≤ b)) := by
  have h1 : (!filters.includeOutgoing && m.isOutgoing) = false := by
    rcases hout with h | h <;> simp [h]
  have h2 : (!filters.includeMedia && m.media.isSome) = false := by
    rcases hmedia with h | h <;> simp [h]
  unfold messagePasses
  rw [h1, h2, hdf]
  simp only [Bool.false_eq_true, if_false]
  cases hfrom : df.fromDate <;> cases hto : df.toDate <;>
    simp only [hfrom, hto, beforeLowerBound, afterUpperBound, htext] <;>
    simp

/-- Messages at 5000 ms and 4000 ms, and a [5000, 9000] ms window. -/
def msgAtBound : MessageInfo :=
  { id := 1, message := some "hi", date := 5, isOutgoing := false,
    media := none, topicId := none }

def msgBeforeBound : MessageInfo :=
  { id := 2, message := some "hi", date := 4, isOutgoing := false,
    media := none, topicId := none }

def filtersWindow : MessageFilters :=
  { includeOutgoing := true, includeMedia := true,
    dateFilter := some { fromDate := some 5000, toDate := some 9000 } }

theorem date_filter_inclusive_bounds_witness :
    messagePasses filtersWindow msgAtBound = true ∧
    messagePasses filtersWindow msgBeforeBound = false := by
  constructor
  · exact (date_filter_inclusive_bounds filtersWindow msgAtBound
      { fromDate := some 5000, toDate := some 9000 } rfl (by decide)
      (Or.inl rfl) (Or.inr rfl)).mpr
      ⟨fun a ha => by cases ha; decide, fun b hb => by cases hb; decide⟩
  · have h := date_filter_inclusive_bounds filtersWindow msgBeforeBound
      { fromDate := some 5000, toDate := some 9000 } rfl (by decide)
      (Or.inl rfl) (Or.inr rfl)
    cases hb : messagePasses filtersWindow msgBeforeBound with
    | false => rfl
    | true =>
      have hle := (h.mp hb).1 5000 rfl
      exact absurd hle (by decide)

theorem foldl_append_eq_flatten {α β : Type} (f : α → List β) :
    ∀ (l : List α) (acc : List β),
      l.foldl (fun a x => a ++ f x) acc = acc ++ (l.map f).flatten
  | [], acc => by simp
  | x :: xs, acc => by
    simp [foldl_append_eq_flatten f xs]

/-- Messages at t = 10 and t = 5 in topic 1, and t = 8 in topic 2. -/
def msgT10 : MessageInfo :=
  { id := 11, message := some "a", date := 10, isOutgoing := false,
    media := none, topicId := some 1 }

def msgT5 : MessageInfo :=
  { id := 12, message := some "b", date := 5, isOutgoing := false,
    media := none, topicId := some 1 }

def msgT8 : MessageInfo :=
  { id := 21, message := some "c", date := 8, isOutgoing := false,
    media := none, topicId := some 2 }

def fetchTwoTopics : Int → List MessageInfo :=
  fun topicId =>
    if topicId = 1 then [msgT10, msgT5]
    else if topicId = 2 then [msgT8]
    else []

/-- Claim C7: the multi-topic branch of extractChat returns the
concatenation of the per-topic fetches, re-sorted by timestamp
descending and truncated to messageLimit; with topics holding messages
at t = 10, 5 and t = 8 and messageLimit 2 it returns [t10, t8]. -/
theorem topic_merge_sort_truncate :
    (∀ (fetchTopic : Int → List MessageInfo) (topicIds : List Int)
        (messageLimit : Nat),
      extractTopicMessages fetchTopic topicIds messageLimit =
        (sortMessagesByDateDesc ((topicIds.map fetchTopic).flatten)).take
          messageLimit)
    ∧ extractTopicMessages fetchTwoTopics [1, 2] 2 = [msgT10, msgT8] := by
  constructor
  · intro fetchTopic topicIds messageLimit
    unfold extractTopicMessages
    rw [foldl_append_eq_flatten]
    simp
  · decide

/-- Claim C9 counterexample: two topics sharing the same last-activity
date are left in encounter order by the sort (the comparator returns 0
for them), not reordered by descending id as the claim requires: with
ids 1 and 2 both at date 100, the output keeps id 1 first. -/
theorem topic_sort_tie_not_by_id :
    sortTopics
        [{ id := 1, title := "U", messageCount := 0, lastMessageDate := some 100 },
         { id := 2, title := "V", messageCount := 0, lastMessageDate := some 100 }] =
      [{ id := 1, title := "U", messageCount := 0, lastMessageDate := some 100 },
       { id := 2, title := "V", messageCount := 0, lastMessageDate := some 100 }] ∧
    ¬ (sortTopics
        [{ id := 1, title := "U", messageCount := 0, lastMessageDate := some 100 },
         { id := 2, title := "V", messageCount := 0, lastMessageDate := some 100 }]).Pairwise
        (fun a b => claimTopicLe a b = true) := by
  constructor
  · decide
  · intro hpw
    rw [show sortTopics
        [{ id := 1, title := "U", messageCount := 0, lastMessageDate := some 100 },
         { id := 2, title := "V", messageCount := 0, lastMessageDate := some 100 }] =
      [{ id := 1, title := "U", messageCount := 0, lastMessageDate := some 100 },
       { id := 2, title := "V", messageCount := 0, lastMessageDate := some 100 }] from by decide] at hpw
    have h := (List.pairwise_cons.mp hpw).1
      { id := 2, title := "V", messageCount := 0, lastMessageDate := some 100 }
      (by simp)
    exact absurd h (by decide)

/-- Claim C9 amended: the topic list is sorted by last-activity date
descending with dateless topics after all dated ones; among two dateless
topics the order is by descending id; two topics with equal dates are
not reordered (the comparator treats them as equivalent), so no id
order is guaranteed between them. -/
theorem topic_sort_order (topics : List TopicInfo) :
    (sortTopics topics).Pairwise (fun a b =>
        match a.lastMessageDate, b.lastMessageDate with
        | some da, some db => db ≤ da
        | some _, none => True
        | none, some _ => False
        | none, none => b.id ≤ a.id) ∧
    (sortTopics topics).Perm topics := by
  refine ⟨?_, List.perm_insertionSort topicLe topics⟩
  have hs := List.sorted_insertionSort topicLe topics
  refine hs.imp ?_
  intro a b hab
  obtain ⟨ia, ta, ca, da⟩ := a
  obtain ⟨ib, tb, cb, db⟩ := b
  unfold topicLe topicCmp at hab
  cases da <;> cases db <;> simp_all

theorem extractionLoop_eq_filterMap
    (extract : String → Except String ExtractionResult) :
    ∀ (chatIds : List String) (results : List ExtractionResult),
      extractionLoop extract chatIds results =
        results ++ chatIds.filterMap (fun c => (extract c).toOption)
  | [], results => by simp [extractionLoop]
  | c :: rest, results => by
    unfold extractionLoop
    cases h : extract c with
    | ok r =>
      simp [h, extractionLoop_eq_filterMap extract rest, Except.toOption]
    | error e =>
      simp [h, extractionLoop_eq_filterMap extract rest, Except.toOption]

/-- Claim C4: once the connection phase succeeds, a multi-chat
extraction never raises because an individual chat failed: every
per-chat error is swallowed, the already-collected results are kept in
order, and the returned sequence is exactly the successful extractions
with the failed chats omitted. -/
theorem extractMultipleChats_skips_failed
    (connect : Except String Unit)
    (extract : String → Except String ExtractionResult)
    (chatIds : List String) (hconnect : connect = .ok ()) :
    extractMultipleChatsToNotion connect extract chatIds =
      .ok (chatIds.filterMap (fun c => (extract c).toOption)) := by
  subst hconnect
  unfold extractMultipleChatsToNotion
  rw [extractionLoop_eq_filterMap]
  simp

def extractDemo : String → Except String ExtractionResult :=
  fun c =>
    if c = "b" then .error "boom"
    else .ok { chatName := c, chatId := c, messageCount := 1 }

theorem extractMultipleChats_skips_failed_witness :
    extractMultipleChatsToNotion (.ok ()) extractDemo ["a", "b", "c"] =
      .ok [{ chatName := "a", chatId := "a", messageCount := 1 },
           { chatName := "c", chatId := "c", messageCount := 1 }] := by
  rw [extractMultipleChats_skips_failed (.ok ()) extractDemo ["a", "b", "c"] rfl]
  rfl

/-- Types a Notion database property can have, as far as the client
creates them (select carries its fixed option names). -/
inductive PropType where
  | title
  | richText
  | date
  | select (options : List String)
  | number
deriving DecidableEq

/-- A database property schema: an insertion-ordered mapping from
property name to property type (a JavaScript object literal). -/
abbrev SchemaProps := List (String × PropType)

/-- Membership test of the schema object: existingProperties[propName]. -/
def hasPropNamed (schema : SchemaProps) (name : String) : Bool :=
  schema.any (fun p => p.1 == name)

/-- The first property of title type, if any (Object.keys(...).find). -/
def findTitleProperty (schema : SchemaProps) : Option String :=
  (schema.find? (fun p => decide (p.2 = PropType.title))).map (fun p => p.1)

/-- NotionClient.getTitlePropertyName: reuse the existing title
property, falling back to the name Message when none exists. -/
def getTitlePropertyName (schema : SchemaProps) : String :=
  (findTitleProperty schema).getD "Message"

/-- The eight non-title properties NotionClient.getRequiredProperties
always demands, in source order. -/
def requiredBaseProperties : SchemaProps :=
  [("Content", PropType.richText),
   ("Sender", PropType.richText),
   ("Chat", PropType.richText),
   ("Date", PropType.date),
   ("Direction", PropType.select ["Incoming", "Outgoing"]),
   ("Message ID", PropType.number),
   ("Media Type", PropType.richText),
   ("Chat ID", PropType.richText)]

/-- NotionClient.getRequiredProperties: the base set, plus a Message
title property only when the existing schema has no title property. -/
def getRequiredProperties (existing : SchemaProps) : SchemaProps :=
  requiredBaseProperties ++
    (if (findTitleProperty existing).isNone then [("Message", PropType.title)]
     else [])

/-- True when every required property name is already present. -/
def schemaComplete (schema : SchemaProps) : Bool :=
  (getRequiredProperties schema).all (fun p => hasPropNamed schema p.1)

/-- A message in the shape NotionClient receives (NotionMessage);
dateMillis is the JavaScript Date value. -/
structure NotionMessage where
  id : Int
  content : String
  sender : String
  dateMillis : Int
  chatName : String
  isOutgoing : Bool
  mediaType : Option String
  chatId : Option String
deriving DecidableEq

/-- The value written into one database property of a created page. -/
inductive PropValue where
  | titleVal (text : String)
  | richTextVal (text : String)
  | dateVal (startMillis : Int)
  | selectVal (name : String)
  | numberVal (n : Int)
deriving DecidableEq

/-- NotionClient.truncateText. -/
def truncateText (text : String) (maxLength : Nat) : String :=
  if text.length ≤ maxLength then text
  else (text.take (maxLength - 3)) ++ "..."

/-- NotionClient.createMessageProperties: the property bag sent with a
page-create call, keyed by the dynamically resolved title name, with
Media Type and Chat ID present only when truthy on the message. -/
def createMessageProperties (schema : SchemaProps) (message : NotionMessage) :
    List (String × PropValue) :=
  [(getTitlePropertyName schema,
      PropValue.titleVal (truncateText
        (if message.content == "" then "[No content]" else message.content) 100)),
   ("Content", PropValue.richTextVal
      (if message.content == "" then "[No content]" else message.content)),
   ("Sender", PropValue.richTextVal message.sender),
   ("Chat", PropValue.richTextVal message.chatName),
   ("Date", PropValue.dateVal message.dateMillis),
   ("Direction", PropValue.selectVal
      (if message.isOutgoing then "Outgoing" else "Incoming")),
   ("Message ID", PropValue.numberVal message.id)]
  ++ (match message.mediaType with
      | some t => if t == "" then [] else [("Media Type", PropValue.richTextVal t)]
      | none => [])
  ++ (match message.chatId with
      | some c => if c == "" then [] else [("Chat ID", PropValue.richTextVal c)]
      | none => [])

/-- The two error classes the client distinguishes: a validation error
whose text names a property that does not exist, and everything else. -/
inductive NotionError where
  | missingProperty (name : String)
  | other
deriving DecidableEq

/-- State of the remote database plus instrumentation: the property
schema, a fault-injection list of message ids whose create request
fails with a non-validation error, the pages created so far, and
counters for ensureDatabaseSchema invocations and issued
schema-update calls. -/
structure NotionDB where
  schema : SchemaProps
  failIds : List Int
  created : List (List (String × PropValue))
  reconcileCalls : Nat
  updateCalls : Nat
deriving DecidableEq

/-- Page ids are opaque strings returned at creation; modelled as
derived from the message id. -/
def pageName (msgId : Int) : String := "page-" ++ toString msgId

/-- The pages.create call: an injected fault fails with a generic
error; otherwise the call fails with a missing-property validation
error when some property name in the bag is not in the schema, and
creates the page otherwise. -/
def pagesCreate (db : NotionDB) (message : NotionMessage)
    (props : List (String × PropValue)) :
    Except NotionError String × NotionDB :=
  if message.id ∈ db.failIds then (.error .other, db)
  else
    match props.find? (fun p => !hasPropNamed db.schema p.1) with
    | some p => (.error (.missingProperty p.1), db)
    | none =>
      (.ok (pageName message.id), { db with created := db.created ++ [props] })

/-- NotionClient.ensureDatabaseSchema: retrieve the schema, compute the
required properties missing by name, and issue one schema update adding
exactly those; a complete schema issues no update. -/
def ensureDatabaseSchema (db : NotionDB) : NotionDB :=
  let required := getRequiredProperties db.schema
  let missing := required.filter (fun p => !hasPropNamed db.schema p.1)
  let dbr := { db with reconcileCalls := db.reconcileCalls + 1 }
  if missing.isEmpty then dbr
  else { dbr with schema := dbr.schema ++ missing,
                  updateCalls := dbr.updateCalls + 1 }

/-- NotionClient.addMessage: build the property bag, create the page;
on a missing-property validation error reconcile the schema once and
retry the single create once, propagating any retry failure; any other
error propagates immediately. -/
def addMessage (db : NotionDB) (message : NotionMessage) :
    Except NotionError String × NotionDB :=
  let props := createMessageProperties db.schema message
  match pagesCreate db message props with
  | (.ok pid, db1) => (.ok pid, db1)
  | (.error (.missingProperty _), db1) =>
    let db2 := ensureDatabaseSchema db1
    let retryProps := createMessageProperties db2.schema message
    pagesCreate db2 message retryProps
  | (.error .other, db1) => (.error .other, db1)

/-- One sub-batch under a sequential schedule: the addMessage calls run
one after the other and the first failure rejects the sub-batch. -/
def runBatchSeq : NotionDB → List NotionMessage →
    Except NotionError (List String) × NotionDB
  | db, [] => (.ok [], db)
  | db, m :: rest =>
    match addMessage db m with
    | (.ok pid, db1) =>
      match runBatchSeq db1 rest with
      | (.ok pids, db2) => (.ok (pid :: pids), db2)
      | (.error e, db2) => (.error e, db2)
    | (.error e, db1) => (.error e, db1)

/-- Phase one of the concurrent sub-batch schedule: every addMessage
issues its first create before any response is handled, so all initial
creates are validated against the sub-batch-entry schema (the schema is
not modified during this phase). -/
def concPhase1 : NotionDB → List NotionMessage →
    List (NotionMessage × Except NotionError String) × NotionDB
  | db, [] => ([], db)
  | db, m :: rest =>
    let props := createMessageProperties db.schema m
    let (res, db1) := pagesCreate db m props
    let (outs, db2) := concPhase1 db1 rest
    ((m, res) :: outs, db2)

/-- Phase two of the concurrent sub-batch schedule: each rejected
create runs its catch handler to completion in order; a handler for a
missing-property error reconciles the schema and retries its single
create, exactly as in addMessage. -/
def concPhase2 : NotionDB → List (NotionMessage × Except NotionError String) →
    List (Except NotionError String) × NotionDB
  | db, [] => ([], db)
  | db, (m, res) :: rest =>
    match res with
    | .ok pid =>
      let (outs, db1) := concPhase2 db rest
      (.ok pid :: outs, db1)
    | .error (.missingProperty _) =>
      let db1 := ensureDatabaseSchema db
      let retryProps := createMessageProperties db1.schema m
      let (res2, db2) := pagesCreate db1 m retryProps
      let (outs, db3) := concPhase2 db2 rest
      (res2 :: outs, db3)
    | .error .other =>
      let (outs, db1) := concPhase2 db rest
      (.error .other :: outs, db1)

/-- Promise.all over the member outcomes: all fulfilled yields the list
of page ids, otherwise the first rejection wins. -/
def collectAll : List (Except NotionError String) →
    Except NotionError (List String)
  | [] => .ok []
  | .ok pid :: rest =>
    match collectAll rest with
    | .ok pids => .ok (pid :: pids)
    | .error e => .error e
  | .error e :: _ => .error e

/-- One sub-batch under the concurrent schedule of the source
(Promise.all over batch.map(addMessage)), for the event-loop
interleaving in which every create request is issued before any
response arrives and rejection handlers then run in order. -/
def runBatchConc (db : NotionDB) (batch : List NotionMessage) :
    Except NotionError (List String) × NotionDB :=
  let (outs, db1) := concPhase1 db batch
  let (results, db2) := concPhase2 db1 outs
  (collectAll results, db2)

/-- The batch loop of NotionClient.addMessages: sub-batches of ten; a
sub-batch failing with a missing-property error while the run-wide
schemaUpdated flag is unset triggers one reconciliation and one retry
of the whole sub-batch; any other failure propagates and ends the
call. The sub-batch execution schedule is a parameter. -/
def addMessagesGo
    (runBatch : NotionDB → List NotionMessage →
      Except NotionError (List String) × NotionDB) :
    NotionDB → List NotionMessage → Bool → List String →
    Except NotionError (List String) × NotionDB
  | db, [], _, pageIds => (.ok pageIds, db)
  | db, m :: rest, schemaUpdated, pageIds =>
    let batch := (m :: rest).take 10
    let remaining := (m :: rest).drop 10
    match runBatch db batch with
    | (.ok batchResults, db1) =>
      addMessagesGo runBatch db1 remaining schemaUpdated (pageIds ++ batchResults)
    | (.error e, db1) =>
      match e, schemaUpdated with
      | .missingProperty _, false =>
        let db2 := ensureDatabaseSchema db1
        match runBatch db2 batch with
        | (.ok batchResults, db3) =>
          addMessagesGo runBatch db3 remaining true (pageIds ++ batchResults)
        | (.error e2, db3) => (.error e2, db3)
      | _, _ => (.error e, db1)
termination_by _ msgs _ _ => msgs.length
decreasing_by all_goals (simp [List.length_drop]; omega)

/-- NotionClient.addMessages entry point: flag unset, no ids yet. -/
def addMessages
    (runBatch : NotionDB → List NotionMessage →
      Except NotionError (List String) × NotionDB)
    (db : NotionDB) (messages : List NotionMessage) :
    Except NotionError (List String) × NotionDB :=
  addMessagesGo runBatch db messages false []

/-- One record of the statistics query page, reduced to the fields
getDatabaseStats reads: the Chat rich-text content and the Direction
select name, either possibly absent. -/
structure NotionPage where
  chat : Option String
  direction : Option String
deriving DecidableEq

/-- JavaScript x || fallback over an optional string. -/
def jsStringOr (v : Option String) (fallback : String) : String :=
  match v with
  | some s => if s == "" then fallback else s
  | none => fallback

/-- counts[key] = (counts[key] || 0) + 1 on an insertion-ordered
JavaScript object. -/
def bumpCount : List (String × Nat) → String → List (String × Nat)
  | [], key => [(key, 1)]
  | (k, n) :: rest, key =>
    if k == key then (k, n + 1) :: rest
    else (k, n) :: bumpCount rest key

/-- The result shape of NotionClient.getDatabaseStats. -/
structure DatabaseStats where
  totalMessages : Nat
  chatCounts : List (String × Nat)
  directionCounts : List (String × Nat)
deriving DecidableEq

/-- NotionClient.getDatabaseStats over the single fetched result page:
the total is the page length and each record bumps one chat bucket and
one direction bucket, falling back to Unknown. -/
def getDatabaseStats (pages : List NotionPage) : DatabaseStats :=
  { totalMessages := pages.length
  , chatCounts :=
      pages.foldl (fun acc page => bumpCount acc (jsStringOr page.chat "Unknown")) []
  , directionCounts :=
      pages.foldl
        (fun acc page => bumpCount acc (jsStringOr page.direction "Unknown")) [] }

theorem mem_hasPropNamed {t : SchemaProps} {p : String × PropType} (hp : p ∈ t) :
    hasPropNamed t p.1 = true := by
  unfold hasPropNamed
  rw [List.any_eq_true]
  exact ⟨p, hp, by simp⟩

theorem hasPropNamed_append (s t : SchemaProps) (n : String) :
    hasPropNamed (s ++ t) n = (hasPropNamed s n || hasPropNamed t n) := by
  unfold hasPropNamed
  exact List.any_append

theorem findTitleProperty_append_some {s : SchemaProps} (t : SchemaProps)
    {n : String} (h : findTitleProperty s = some n) :
    findTitleProperty (s ++ t) = some n := by
  unfold findTitleProperty at h ⊢
  obtain ⟨q, hq, hqn⟩ := Option.map_eq_some'.mp h
  rw [List.find?_append, hq, Option.or_some]
  simpa using hqn

theorem ensure_schema_eq (db : NotionDB) :
    (ensureDatabaseSchema db).schema =
      db.schema ++ (getRequiredProperties db.schema).filter
        (fun p => !hasPropNamed db.schema p.1) := by
  simp only [ensureDatabaseSchema]
  split
  next hempty =>
    rw [List.isEmpty_iff.mp hempty]
    simp
  next => rfl

theorem ensure_failIds (db : NotionDB) :
    (ensureDatabaseSchema db).failIds = db.failIds := by
  simp only [ensureDatabaseSchema]
  split <;> rfl

theorem ensure_created (db : NotionDB) :
    (ensureDatabaseSchema db).created = db.created := by
  simp only [ensureDatabaseSchema]
  split <;> rfl

theorem ensure_reconcileCalls (db : NotionDB) :
    (ensureDatabaseSchema db).reconcileCalls = db.reconcileCalls + 1 := by
  simp only [ensureDatabaseSchema]
  split <;> rfl

theorem requiredBase_no_title :
    ∀ p ∈ requiredBaseProperties, p.2 ≠ PropType.title := by decide

theorem required_no_title_of_some {s : SchemaProps} {n : String}
    (h : findTitleProperty s = some n) :
    ∀ p ∈ getRequiredProperties s, p.2 ≠ PropType.title := by
  intro p hp
  unfold getRequiredProperties at hp
  rw [h] at hp
  simp only [Option.isNone_some, Bool.false_eq_true, if_false,
    List.append_nil] at hp
  exact requiredBase_no_title p hp

/-- After one reconciliation the schema always has every required
property name. -/
theorem schemaComplete_ensure (db : NotionDB) :
    schemaComplete (ensureDatabaseSchema db).schema = true := by
  rw [schemaComplete, List.all_eq_true]
  intro p hp
  rw [ensure_schema_eq] at hp ⊢
  set miss := (getRequiredProperties db.schema).filter
      (fun q => !hasPropNamed db.schema q.1) with hmissdef
  rw [getRequiredProperties] at hp
  rcases List.mem_append.mp hp with hbase | hextra
  · have hpreq : p ∈ getRequiredProperties db.schema := by
      rw [getRequiredProperties]
      exact List.mem_append_left _ hbase
    by_cases hh : hasPropNamed db.schema p.1 = true
    · rw [hasPropNamed_append]
      simp [hh]
    · have hmemf : p ∈ miss := by
        rw [hmissdef]
        exact List.mem_filter.mpr ⟨hpreq, by simp [hh]⟩
      rw [hasPropNamed_append]
      simp [mem_hasPropNamed hmemf]
  · by_cases hcond : (findTitleProperty (db.schema ++ miss)).isNone = true
    · rw [if_pos hcond] at hextra
      have hp2 : p = ("Message", PropType.title) := by simpa using hextra
      have hfs : findTitleProperty db.schema = none := by
        cases hf : findTitleProperty db.schema with
        | none => rfl
        | some n =>
          rw [findTitleProperty_append_some miss hf] at hcond
          simp at hcond
      have hpreq : p ∈ getRequiredProperties db.schema := by
        rw [getRequiredProperties, hfs, hp2]
        simp
      by_cases hh : hasPropNamed db.schema p.1 = true
      · rw [hasPropNamed_append]
        simp [hh]
      · have hmemf : p ∈ miss := by
          rw [hmissdef]
          exact List.mem_filter.mpr ⟨hpreq, by simp [hh]⟩
        rw [hasPropNamed_append]
        simp [mem_hasPropNamed hmemf]
    · rw [if_neg hcond] at hextra
      simp at hextra

/-- Claim C5: reconciling an already-complete schema is a no-op apart
from the invocation itself: no property is added and no schema-update
call is issued, and a second reconciliation right after behaves the
same way. -/
theorem ensureDatabaseSchema_idempotent_noop (db : NotionDB)
    (hcomplete : schemaComplete db.schema = true) :
    ensureDatabaseSchema db =
      { db with reconcileCalls := db.reconcileCalls + 1 } ∧
    ensureDatabaseSchema (ensureDatabaseSchema db) =
      { db with reconcileCalls := db.reconcileCalls + 2 } := by
  have hmiss : (getRequiredProperties db.schema).filter
      (fun p => !hasPropNamed db.schema p.1) = [] := by
    rw [List.filter_eq_nil_iff]
    intro p hp
    have := List.all_eq_true.mp hcomplete p hp
    simp [this]
  have h1 : ensureDatabaseSchema db =
      { db with reconcileCalls := db.reconcileCalls + 1 } := by
    unfold ensureDatabaseSchema
    simp [hmiss]
  refine ⟨h1, ?_⟩
  rw [h1]
  have h2 : ensureDatabaseSchema
      { db with reconcileCalls := db.reconcileCalls + 1 } =
      { db with reconcileCalls := db.reconcileCalls + 1 + 1 } := by
    unfold ensureDatabaseSchema
    simp [hmiss]
  rw [h2]

/-- The full schema created by createMessagesDatabase: a Message title
property plus the eight base properties. -/
def fullSchema : SchemaProps :=
  ("Message", PropType.title) :: requiredBaseProperties

def dbComplete : NotionDB :=
  { schema := fullSchema, failIds := [], created := [],
    reconcileCalls := 0, updateCalls := 0 }

theorem ensureDatabaseSchema_idempotent_noop_witness :
    ensureDatabaseSchema dbComplete = { dbComplete with reconcileCalls := 1 } ∧
    ensureDatabaseSchema (ensureDatabaseSchema dbComplete) =
      { dbComplete with reconcileCalls := 2 } :=
  ensureDatabaseSchema_idempotent_noop dbComplete (by decide)

/-- Claim C6: when the collection already has a title-type property
(for instance one named Name instead of Message), the property bag of
upsertOne writes the truncated message content under that existing
name, the required-property set demands no title property, and schema
reconciliation adds no second title property; a title property can be
added only when no title-type property exists at all. -/
theorem title_property_reused_not_duplicated (db : NotionDB)
    (message : NotionMessage) (n : String) :
    (findTitleProperty db.schema = some n →
      (createMessageProperties db.schema message).head? =
        some (n, PropValue.titleVal (truncateText
          (if message.content == "" then "[No content]" else message.content)
          100)) ∧
      (∀ p ∈ getRequiredProperties db.schema, p.2 ≠ PropType.title) ∧
      (ensureDatabaseSchema db).schema.filter
          (fun p => decide (p.2 = PropType.title)) =
        db.schema.filter (fun p => decide (p.2 = PropType.title))) ∧
    (∀ p ∈ (ensureDatabaseSchema db).schema, p.2 = PropType.title →
      p ∉ db.schema → findTitleProperty db.schema = none) := by
  constructor
  · intro h
    refine ⟨?_, required_no_title_of_some h, ?_⟩
    · simp [createMessageProperties, getTitlePropertyName, h]
    · rw [ensure_schema_eq, List.filter_append]
      have hnil : ((getRequiredProperties db.schema).filter
          (fun p => !hasPropNamed db.schema p.1)).filter
          (fun p => decide (p.2 = PropType.title)) = [] := by
        rw [List.filter_eq_nil_iff]
        intro p hp
        have hnt := required_no_title_of_some h p (List.mem_of_mem_filter hp)
        simp [hnt]
      rw [hnil, List.append_nil]
  · intro p hp htitle hnotin
    cases hf : findTitleProperty db.schema with
    | none => rfl
    | some n2 =>
      exfalso
      rw [ensure_schema_eq] at hp
      rcases List.mem_append.mp hp with hin | hin
      · exact hnotin hin
      · exact required_no_title_of_some hf p (List.mem_of_mem_filter hin) htitle

/-- A provisioned schema whose title property is named Name. -/
def schemaWithNameTitle : SchemaProps :=
  ("Name", PropType.title) :: requiredBaseProperties

def dbWithNameTitle : NotionDB :=
  { schema := schemaWithNameTitle, failIds := [], created := [],
    reconcileCalls := 0, updateCalls := 0 }

def msgHello : NotionMessage :=
  { id := 7, content := "hello", sender := "alice", dateMillis := 1000,
    chatName := "Team", isOutgoing := false, mediaType := none,
    chatId := none }

theorem title_property_reused_not_duplicated_witness :
    (createMessageProperties dbWithNameTitle.schema msgHello).head? =
      some ("Name", PropValue.titleVal "hello") ∧
    (ensureDatabaseSchema dbWithNameTitle).schema.filter
        (fun p => decide (p.2 = PropType.title)) =
      dbWithNameTitle.schema.filter
        (fun p => decide (p.2 = PropType.title)) := by
  have h := (title_property_reused_not_duplicated dbWithNameTitle msgHello
    "Name").1 (by decide)
  exact ⟨h.1, h.2.2⟩

def sumCounts (counts : List (String × Nat)) : Nat :=
  (counts.map (fun p => p.2)).sum

theorem sumCounts_bumpCount (counts : List (String × Nat)) (key : String) :
    sumCounts (bumpCount counts key) = sumCounts counts + 1 := by
  induction counts with
  | nil => rfl
  | cons q rest ih =>
    obtain ⟨k, n⟩ := q
    unfold bumpCount
    by_cases h : (k == key) = true
    · simp only [if_pos h, sumCounts, List.map_cons, List.sum_cons]
      omega
    · simp only [if_neg h, sumCounts, List.map_cons, List.sum_cons]
      simp only [sumCounts] at ih
      omega

theorem foldl_bumpCount_sum {α : Type} (f : α → String) :
    ∀ (pages : List α) (acc : List (String × Nat)),
      sumCounts (pages.foldl (fun a page => bumpCount a (f page)) acc) =
        sumCounts acc + pages.length
  | [], acc => by simp
  | page :: rest, acc => by
    simp only [List.foldl_cons, List.length_cons]
    rw [foldl_bumpCount_sum f rest, sumCounts_bumpCount]
    omega

/-- Claim C10: the statistics result is internally consistent: the
total equals the number of fetched records, and it also equals the sum
of the per-chat counts and the sum of the per-direction counts, since
every record bumps exactly one bucket of each tally. -/
theorem getDatabaseStats_counts_sum (pages : List NotionPage) :
    sumCounts (getDatabaseStats pages).chatCounts =
      (getDatabaseStats pages).totalMessages ∧
    sumCounts (getDatabaseStats pages).directionCounts =
      (getDatabaseStats pages).totalMessages ∧
    (getDatabaseStats pages).totalMessages = pages.length := by
  have h1 := foldl_bumpCount_sum (fun page => jsStringOr page.chat "Unknown")
    pages []
  have h2 := foldl_bumpCount_sum
    (fun page => jsStringOr page.direction "Unknown") pages []
  simp only [sumCounts, List.map_nil, List.sum_nil, Nat.zero_add] at h1 h2
  exact ⟨h1, h2, rfl⟩

theorem createMessageProperties_name_mem {s : SchemaProps}
    {m : NotionMessage} {p : String × PropValue}
    (hp : p ∈ createMessageProperties s m) :
    p.1 = getTitlePropertyName s ∨
      p.1 ∈ ["Content", "Sender", "Chat", "Date", "Direction", "Message ID",
             "Media Type", "Chat ID"] := by
  unfold createMessageProperties at hp
  rcases List.mem_append.mp hp with h | h
  · rcases List.mem_append.mp h with h | h
    · simp only [List.mem_cons, List.not_mem_nil, or_false] at h
      rcases h with rfl | rfl | rfl | rfl | rfl | rfl | rfl <;> simp
    · cases hmt : m.mediaType with
      | none =>
        rw [hmt] at h
        simp at h
      | some t =>
        simp only [hmt] at h
        by_cases ht : (t == "") = true
        · rw [if_pos ht] at h
          simp at h
        · rw [if_neg ht] at h
          simp only [List.mem_cons, List.not_mem_nil, or_false] at h
          subst h
          simp
  · cases hcid : m.chatId with
    | none =>
      rw [hcid] at h
      simp at h
    | some c =>
      simp only [hcid] at h
      by_cases hc : (c == "") = true
      · rw [if_pos hc] at h
        simp at h
      · rw [if_neg hc] at h
        simp only [List.mem_cons, List.not_mem_nil, or_false] at h
        subst h
        simp

theorem createMessageProperties_names_present {s : SchemaProps}
    (hcomplete : schemaComplete s = true) (m : NotionMessage) :
    ∀ p ∈ createMessageProperties s m, hasPropNamed s p.1 = true := by
  have hall := List.all_eq_true.mp hcomplete
  have hbase : ∀ q ∈ requiredBaseProperties, hasPropNamed s q.1 = true := by
    intro q hq
    refine hall q ?_
    rw [getRequiredProperties]
    exact List.mem_append_left _ hq
  have htitle : hasPropNamed s (getTitlePropertyName s) = true := by
    unfold getTitlePropertyName
    cases hf : findTitleProperty s with
    | some n =>
      unfold findTitleProperty at hf
      obtain ⟨q, hq, hqn⟩ := Option.map_eq_some'.mp hf
      have hm := mem_hasPropNamed (List.mem_of_find?_eq_some hq)
      rw [hqn] at hm
      simpa using hm
    | none =>
      have hm : ("Message", PropType.title) ∈ getRequiredProperties s := by
        rw [getRequiredProperties, hf]
        simp
      simpa using hall _ hm
  intro p hp
  rcases createMessageProperties_name_mem hp with h | h
  · rw [h]
    exact htitle
  · simp only [List.mem_cons, List.not_mem_nil, or_false] at h
    rcases h with h | h | h | h | h | h | h | h <;> rw [h]
    · exact hbase ("Content", PropType.richText) (by decide)
    · exact hbase ("Sender", PropType.richText) (by decide)
    · exact hbase ("Chat", PropType.richText) (by decide)
    · exact hbase ("Date", PropType.date) (by decide)
    · exact hbase ("Direction", PropType.select ["Incoming", "Outgoing"])
        (by decide)
    · exact hbase ("Message ID", PropType.number) (by decide)
    · exact hbase ("Media Type", PropType.richText) (by decide)
    · exact hbase ("Chat ID", PropType.richText) (by decide)

theorem pagesCreate_complete {db : NotionDB} {m : NotionMessage}
    (hcomplete : schemaComplete db.schema = true) :
    pagesCreate db m (createMessageProperties db.schema m) =
      if m.id ∈ db.failIds then (.error .other, db)
      else (.ok (pageName m.id),
        { db with created :=
            db.created ++ [createMessageProperties db.schema m] }) := by
  unfold pagesCreate
  have hfind : (createMessageProperties db.schema m).find?
      (fun p => !hasPropNamed db.schema p.1) = none := by
    rw [List.find?_eq_none]
    intro p hp
    simp [createMessageProperties_names_present hcomplete m p hp]
  rw [hfind]

theorem addMessage_complete {db : NotionDB} {m : NotionMessage}
    (hcomplete : schemaComplete db.schema = true) :
    addMessage db m =
      if m.id ∈ db.failIds then (.error .other, db)
      else (.ok (pageName m.id),
        { db with created :=
            db.created ++ [createMessageProperties db.schema m] }) := by
  simp only [addMessage]
  rw [pagesCreate_complete hcomplete]
  by_cases hf : m.id ∈ db.failIds
  · simp only [if_pos hf]
  · simp only [if_neg hf]

/-- General behaviour of one addMessage call: it reconciles at most
once; when it does not reconcile the schema is unchanged; when it does
the schema ends up complete; a surfaced error is never a
missing-property error; the fault list is untouched. -/
theorem addMessage_spec (db : NotionDB) (m : NotionMessage) :
    db.reconcileCalls ≤ (addMessage db m).2.reconcileCalls ∧
    (addMessage db m).2.reconcileCalls ≤ db.reconcileCalls + 1 ∧
    ((addMessage db m).2.reconcileCalls = db.reconcileCalls →
      (addMessage db m).2.schema = db.schema) ∧
    (db.reconcileCalls < (addMessage db m).2.reconcileCalls →
      schemaComplete (addMessage db m).2.schema = true) ∧
    (∀ e, (addMessage db m).1 = .error e → e = .other) ∧
    (addMessage db m).2.failIds = db.failIds ∧
    (schemaComplete db.schema = true →
      (addMessage db m).2.schema = db.schema ∧
      (addMessage db m).2.reconcileCalls = db.reconcileCalls) := by
  by_cases hf : m.id ∈ db.failIds
  · have heq : addMessage db m = (.error .other, db) := by
      simp only [addMessage]
      unfold pagesCreate
      simp only [if_pos hf]
    rw [heq]
    refine ⟨Nat.le_refl _, Nat.le_succ _, fun _ => rfl,
      fun h => absurd h (lt_irrefl _), ?_, rfl, fun _ => ⟨rfl, rfl⟩⟩
    intro e he
    exact (Except.error.inj he).symm
  · cases hfind : (createMessageProperties db.schema m).find?
        (fun p => !hasPropNamed db.schema p.1) with
    | none =>
      have heq : addMessage db m = (.ok (pageName m.id),
          { db with created :=
              db.created ++ [createMessageProperties db.schema m] }) := by
        simp only [addMessage]
        unfold pagesCreate
        simp only [if_neg hf, hfind]
      rw [heq]
      refine ⟨Nat.le_refl _, Nat.le_succ _, fun _ => rfl,
        fun h => absurd h (lt_irrefl _), ?_, rfl, fun _ => ⟨rfl, rfl⟩⟩
      intro e he
      simp at he
    | some q =>
      have hc2 := schemaComplete_ensure db
      have hstep : pagesCreate db m (createMessageProperties db.schema m) =
          (.error (.missingProperty q.1), db) := by
        unfold pagesCreate
        simp only [if_neg hf, hfind]
      have heq : addMessage db m =
          pagesCreate (ensureDatabaseSchema db) m
            (createMessageProperties (ensureDatabaseSchema db).schema m) := by
        simp only [addMessage]
        rw [hstep]
      have hff : m.id ∉ (ensureDatabaseSchema db).failIds := by
        rw [ensure_failIds]
        exact hf
      have hretry : pagesCreate (ensureDatabaseSchema db) m
          (createMessageProperties (ensureDatabaseSchema db).schema m) =
          (.ok (pageName m.id),
           { ensureDatabaseSchema db with created :=
               (ensureDatabaseSchema db).created ++
                 [createMessageProperties (ensureDatabaseSchema db).schema m] }) := by
        rw [pagesCreate_complete hc2, if_neg hff]
      rw [heq, hretry]
      have hrc := ensure_reconcileCalls db
      refine ⟨?_, ?_, ?_, ?_, ?_, ensure_failIds db, ?_⟩
      · simp only [hrc]
        omega
      · simp only [hrc]
        omega
      · intro hrec
        simp only [hrc] at hrec
        omega
      · intro _
        exact hc2
      · intro e he
        simp at he
      · intro hcpl
        exfalso
        have hnone : (createMessageProperties db.schema m).find?
            (fun p => !hasPropNamed db.schema p.1) = none := by
          rw [List.find?_eq_none]
          intro p hp
          simp [createMessageProperties_names_present hcpl m p hp]
        rw [hnone] at hfind
        cases hfind

theorem runBatchSeq_cons (db : NotionDB) (m : NotionMessage)
    (rest : List NotionMessage) :
    runBatchSeq db (m :: rest) =
      match addMessage db m with
      | (.ok pid, db1) =>
        match runBatchSeq db1 rest with
        | (.ok pids, db2) => (.ok (pid :: pids), db2)
        | (.error e, db2) => (.error e, db2)
      | (.error e, db1) => (.error e, db1) := by
  rw [runBatchSeq]

/-- General behaviour of one sequential sub-batch: reconciliation
happens at most once, completeness is established by any
reconciliation and preserved afterwards, surfaced errors are never
missing-property errors, and the fault list is untouched. -/
theorem runBatchSeq_spec :
    ∀ (batch : List NotionMessage) (db : NotionDB),
      db.reconcileCalls ≤ (runBatchSeq db batch).2.reconcileCalls ∧
      (runBatchSeq db batch).2.reconcileCalls ≤ db.reconcileCalls + 1 ∧
      ((runBatchSeq db batch).2.reconcileCalls = db.reconcileCalls →
        (runBatchSeq db batch).2.schema = db.schema) ∧
      (db.reconcileCalls < (runBatchSeq db batch).2.reconcileCalls →
        schemaComplete (runBatchSeq db batch).2.schema = true) ∧
      (∀ e, (runBatchSeq db batch).1 = .error e → e = .other) ∧
      (runBatchSeq db batch).2.failIds = db.failIds ∧
      (schemaComplete db.schema = true →
        (runBatchSeq db batch).2.schema = db.schema ∧
        (runBatchSeq db batch).2.reconcileCalls = db.reconcileCalls)
  | [], db => by
    rw [runBatchSeq]
    refine ⟨Nat.le_refl _, Nat.le_succ _, fun _ => rfl,
      fun h => absurd h (lt_irrefl _), ?_, rfl, fun _ => ⟨rfl, rfl⟩⟩
    intro e he
    cases he
  | m :: rest, db => by
    obtain ⟨ha1, ha2, ha3, ha4, ha5, ha6, ha7⟩ := addMessage_spec db m
    rcases haddr : addMessage db m with ⟨r, db1⟩
    rw [haddr] at ha1 ha2 ha3 ha4 ha5 ha6 ha7
    dsimp only at ha1 ha2 ha3 ha4 ha5 ha6 ha7
    cases r with
    | error e =>
      have heq : runBatchSeq db (m :: rest) = (.error e, db1) := by
        simp only [runBatchSeq_cons, haddr]
      rw [heq]
      refine ⟨ha1, ha2, ha3, ha4, ?_, ha6, ?_⟩
      · intro e2 he2
        rw [← (Except.error.inj he2)]
        exact ha5 e rfl
      · intro hcpl
        exact ha7 hcpl
    | ok pid =>
      obtain ⟨hi1, hi2, hi3, hi4, hi5, hi6, hi7⟩ := runBatchSeq_spec rest db1
      rcases hrest : runBatchSeq db1 rest with ⟨r2, db2⟩
      rw [hrest] at hi1 hi2 hi3 hi4 hi5 hi6 hi7
      dsimp only at hi1 hi2 hi3 hi4 hi5 hi6 hi7
      have hfinal : ∀ res : Except NotionError (List String) × NotionDB,
          res.2 = db2 →
          db.reconcileCalls ≤ res.2.reconcileCalls ∧
          res.2.reconcileCalls ≤ db.reconcileCalls + 1 ∧
          (res.2.reconcileCalls = db.reconcileCalls →
            res.2.schema = db.schema) ∧
          (db.reconcileCalls < res.2.reconcileCalls →
            schemaComplete res.2.schema = true) ∧
          res.2.failIds = db.failIds ∧
          (schemaComplete db.schema = true →
            res.2.schema = db.schema ∧
            res.2.reconcileCalls = db.reconcileCalls) := by
        intro res hres
        rw [hres]
        refine ⟨le_trans ha1 hi1, ?_, ?_, ?_, by rw [hi6, ha6], ?_⟩
        · rcases Nat.lt_or_ge db.reconcileCalls db1.reconcileCalls with h | h
          · have hcpl1 := ha4 h
            have := (hi7 hcpl1).2
            omega
          · have h1 : db1.reconcileCalls = db.reconcileCalls :=
              Nat.le_antisymm h ha1
            omega
        · intro h2
          have h1 : db1.reconcileCalls = db.reconcileCalls := by omega
          rw [hi3 (by omega), ha3 h1]
        · intro hlt
          rcases Nat.lt_or_ge db.reconcileCalls db1.reconcileCalls with h | h
          · have hcpl1 := ha4 h
            have h7 := hi7 hcpl1
            rw [h7.1]
            exact hcpl1
          · have h1 : db1.reconcileCalls = db.reconcileCalls :=
              Nat.le_antisymm h ha1
            exact hi4 (by omega)
        · intro hcpl
          have h7a := ha7 hcpl
          have hcpl1 : schemaComplete db1.schema = true := by
            rw [h7a.1]
            exact hcpl
          have h7i := hi7 hcpl1
          exact ⟨by rw [h7i.1, h7a.1], by rw [h7i.2, h7a.2]⟩
      cases r2 with
      | error e2 =>
        have heq : runBatchSeq db (m :: rest) = (.error e2, db2) := by
          simp only [runBatchSeq_cons, haddr, hrest]
        rw [heq]
        obtain ⟨g1, g2, g3, g4, g6, g7⟩ := hfinal (.error e2, db2) rfl
        refine ⟨g1, g2, g3, g4, ?_, g6, g7⟩
        intro e3 he3
        rw [← (Except.error.inj he3)]
        exact hi5 e2 rfl
      | ok pids =>
        have heq : runBatchSeq db (m :: rest) = (.ok (pid :: pids), db2) := by
          simp only [runBatchSeq_cons, haddr, hrest]
        rw [heq]
        obtain ⟨g1, g2, g3, g4, g6, g7⟩ := hfinal (.ok (pid :: pids), db2) rfl
        refine ⟨g1, g2, g3, g4, ?_, g6, g7⟩
        intro e3 he3
        cases he3

theorem addMessagesGo_step
    (runBatch : NotionDB → List NotionMessage →
      Except NotionError (List String) × NotionDB)
    (db : NotionDB) (msgs : List NotionMessage) (su : Bool)
    (pids : List String) (hne : msgs ≠ []) :
    addMessagesGo runBatch db msgs su pids =
      match runBatch db (msgs.take 10) with
      | (.ok batchResults, db1) =>
        addMessagesGo runBatch db1 (msgs.drop 10) su (pids ++ batchResults)
      | (.error e, db1) =>
        match e, su with
        | .missingProperty _, false =>
          match runBatch (ensureDatabaseSchema db1) (msgs.take 10) with
          | (.ok batchResults, db3) =>
            addMessagesGo runBatch db3 (msgs.drop 10) true (pids ++ batchResults)
          | (.error e2, db3) => (.error e2, db3)
        | _, _ => (.error e, db1) := by
  cases msgs with
  | nil => exact absurd rfl hne
  | cons m rest => rw [addMessagesGo]

theorem addMessagesGo_step_ok
    (runBatch : NotionDB → List NotionMessage →
      Except NotionError (List String) × NotionDB)
    (db : NotionDB) (msgs : List NotionMessage) (su : Bool)
    (pids : List String) (hne : msgs ≠ [])
    (batchResults : List String) (db1 : NotionDB)
    (hb : runBatch db (msgs.take 10) = (.ok batchResults, db1)) :
    addMessagesGo runBatch db msgs su pids =
      addMessagesGo runBatch db1 (msgs.drop 10) su (pids ++ batchResults) := by
  rw [addMessagesGo_step runBatch db msgs su pids hne, hb]

theorem addMessagesGo_step_error_other
    (runBatch : NotionDB → List NotionMessage →
      Except NotionError (List String) × NotionDB)
    (db : NotionDB) (msgs : List NotionMessage) (su : Bool)
    (pids : List String) (hne : msgs ≠ []) (db1 : NotionDB)
    (hb : runBatch db (msgs.take 10) = (.error .other, db1)) :
    addMessagesGo runBatch db msgs su pids = (.error .other, db1) := by
  rw [addMessagesGo_step runBatch db msgs su pids hne, hb]

/-- The batch loop under the sequential schedule invokes
ensureDatabaseSchema at most once beyond the starting count, and not
at all when the schema is already complete. -/
theorem addMessagesGo_seq_bound :
    ∀ (n : Nat) (msgs : List NotionMessage), msgs.length ≤ n →
      ∀ (db : NotionDB) (su : Bool) (pids : List String),
      (addMessagesGo runBatchSeq db msgs su pids).2.reconcileCalls ≤
        db.reconcileCalls +
          (if schemaComplete db.schema = true then 0 else 1) := by
  intro n
  induction n with
  | zero =>
    intro msgs hlen db su pids
    have hnil : msgs = [] := List.length_eq_zero.mp (Nat.le_zero.mp hlen)
    subst hnil
    rw [addMessagesGo]
    dsimp only
    split <;> omega
  | succ n ih =>
    intro msgs hlen db su pids
    cases msgs with
    | nil =>
      rw [addMessagesGo]
      dsimp only
      split <;> omega
    | cons m rest =>
      obtain ⟨hs1, hs2, hs3, hs4, hs5, hs6, hs7⟩ :=
        runBatchSeq_spec ((m :: rest).take 10) db
      rcases hb : runBatchSeq db ((m :: rest).take 10) with ⟨rb, db1⟩
      rw [hb] at hs1 hs2 hs3 hs4 hs5 hs6 hs7
      dsimp only at hs1 hs2 hs3 hs4 hs5 hs6 hs7
      have hlen2 : ((m :: rest).drop 10).length ≤ n := by
        simp only [List.length_drop, List.length_cons] at hlen ⊢
        omega
      cases rb with
      | ok batchResults =>
        rw [addMessagesGo_step_ok runBatchSeq db (m :: rest) su pids
          (by simp) batchResults db1 hb]
        have hih := ih ((m :: rest).drop 10) hlen2 db1 su
          (pids ++ batchResults)
        by_cases hcpl : schemaComplete db.schema = true
        · obtain ⟨hsch, hrec⟩ := hs7 hcpl
          rw [if_pos hcpl]
          rw [if_pos (by rw [hsch]; exact hcpl)] at hih
          omega
        · rw [if_neg hcpl]
          rcases Nat.lt_or_ge db.reconcileCalls db1.reconcileCalls with h | h
          · have hcpl1 := hs4 h
            rw [if_pos hcpl1] at hih
            omega
          · have heq : db1.reconcileCalls = db.reconcileCalls :=
              Nat.le_antisymm h hs1
            have hsch := hs3 heq
            rw [if_neg (by rw [hsch]; exact hcpl)] at hih
            omega
      | error e =>
        have he := hs5 e rfl
        subst he
        rw [addMessagesGo_step_error_other runBatchSeq db (m :: rest) su pids
          (by simp) db1 hb]
        dsimp only
        by_cases hcpl : schemaComplete db.schema = true
        · obtain ⟨hsch, hrec⟩ := hs7 hcpl
          rw [if_pos hcpl]
          omega
        · rw [if_neg hcpl]
          omega

theorem addMessagesGo_one_ok
    (runBatch : NotionDB → List NotionMessage →
      Except NotionError (List String) × NotionDB)
    (db : NotionDB) (msgs : List NotionMessage) (su : Bool)
    (pids : List String) (hne : msgs ≠ [])
    (batchResults : List String) (db1 : NotionDB)
    (hb : runBatch db (msgs.take 10) = (.ok batchResults, db1))
    (hdrop : msgs.drop 10 = []) :
    addMessagesGo runBatch db msgs su pids =
      (.ok (pids ++ batchResults), db1) := by
  rw [addMessagesGo_step_ok runBatch db msgs su pids hne batchResults db1 hb,
    hdrop, addMessagesGo]

def mkMsg (i : Int) : NotionMessage :=
  { id := i, content := "m", sender := "s", dateMillis := 0,
    chatName := "c", isOutgoing := false, mediaType := none,
    chatId := none }

def dbWithFault : NotionDB :=
  { schema := fullSchema, failIds := [5], created := [],
    reconcileCalls := 0, updateCalls := 0 }

def preMsgs : List NotionMessage := [mkMsg 1, mkMsg 2, mkMsg 3, mkMsg 4]

def postMsgs : List NotionMessage :=
  [mkMsg 6, mkMsg 7, mkMsg 8, mkMsg 9, mkMsg 10, mkMsg 11, mkMsg 12,
   mkMsg 13, mkMsg 14, mkMsg 15, mkMsg 16, mkMsg 17, mkMsg 18, mkMsg 19,
   mkMsg 20]

/-- The messages of a batch that are not hit by an injected fault:
their create requests succeed on the remote side. -/
def notFaulted (db : NotionDB) (m : NotionMessage) : Bool :=
  !decide (m.id ∈ db.failIds)

/-- The pages the concurrent schedule creates out of a run of
messages: the property bags of everyone not hit by a fault. -/
def createdOf (db : NotionDB) (msgs : List NotionMessage) :
    List (List (String × PropValue)) :=
  (msgs.filter (notFaulted db)).map (fun x => createMessageProperties db.schema x)

theorem createdOf_append (db : NotionDB) (l1 l2 : List NotionMessage) :
    createdOf db (l1 ++ l2) = createdOf db l1 ++ createdOf db l2 := by
  simp [createdOf, List.filter_append]

theorem createdOf_of_clean (db : NotionDB) (l : List NotionMessage)
    (hclean : ∀ x ∈ l, x.id ∉ db.failIds) :
    createdOf db l = l.map (fun x => createMessageProperties db.schema x) := by
  unfold createdOf
  rw [show l.filter (notFaulted db) = l from ?_]
  rw [List.filter_eq_self]
  intro a ha
  simp [notFaulted, hclean a ha]

/-- Phase one of the concurrent schedule against a complete schema:
every create request goes out, the faulted ones reject with the
generic error, every other entry of the sub-batch is created. -/
theorem concPhase1_complete :
    ∀ (batch : List NotionMessage) (db : NotionDB),
      schemaComplete db.schema = true →
      concPhase1 db batch =
        (batch.map (fun m => (m,
            if m.id ∈ db.failIds then Except.error NotionError.other
            else Except.ok (pageName m.id))),
         { db with created := db.created ++ createdOf db batch })
  | [], db, _ => by simp [concPhase1, createdOf]
  | m :: rest, db, hc => by
    by_cases hm : m.id ∈ db.failIds
    · have hpc : pagesCreate db m (createMessageProperties db.schema m) =
          (.error .other, db) := by
        rw [pagesCreate_complete hc, if_pos hm]
      have hrec := concPhase1_complete rest db hc
      simp only [concPhase1, hpc, hrec]
      simp [createdOf, notFaulted, hm]
    · have hpc : pagesCreate db m (createMessageProperties db.schema m) =
          (.ok (pageName m.id),
           { db with created :=
               db.created ++ [createMessageProperties db.schema m] }) := by
        rw [pagesCreate_complete hc, if_neg hm]
      have hrec := concPhase1_complete rest
        { db with created :=
            db.created ++ [createMessageProperties db.schema m] } hc
      simp only [concPhase1, hpc, hrec]
      rw [show createdOf
          { db with created :=
              db.created ++ [createMessageProperties db.schema m] } =
        createdOf db from rfl]
      simp [createdOf, notFaulted, hm, List.append_assoc]

/-- Phase two of the concurrent schedule is the identity when no
member rejected with a missing-property error: no handler reconciles
and every outcome passes through unchanged. -/
theorem concPhase2_id :
    ∀ (outs : List (NotionMessage × Except NotionError String))
      (db : NotionDB),
      (∀ p ∈ outs, ∀ n, p.2 ≠ Except.error (NotionError.missingProperty n)) →
      concPhase2 db outs = (outs.map (fun p => p.2), db)
  | [], db, _ => by simp [concPhase2]
  | (m, res) :: rest, db, h => by
    have hrec := concPhase2_id rest db
      (fun p hp => h p (List.mem_cons_of_mem _ hp))
    cases res with
    | ok pid => simp [concPhase2, hrec]
    | error e =>
      cases e with
      | missingProperty n =>
        exact absurd rfl
          (h (m, .error (.missingProperty n)) (List.mem_cons_self _ _) n)
      | other => simp [concPhase2, hrec]

theorem collectAll_map_ok_of : ∀ (batch : List NotionMessage),
    collectAll (batch.map (fun m =>
        (Except.ok (pageName m.id) : Except NotionError String))) =
      .ok (batch.map (fun m => pageName m.id))
  | [] => rfl
  | m :: rest => by simp [collectAll, collectAll_map_ok_of rest]

theorem collectAll_fail_of (db : NotionDB) :
    ∀ (bpre : List NotionMessage) (mfail : NotionMessage)
      (bpost : List NotionMessage),
      (∀ x ∈ bpre, x.id ∉ db.failIds) → mfail.id ∈ db.failIds →
      collectAll ((bpre ++ mfail :: bpost).map (fun m =>
          if m.id ∈ db.failIds
          then (Except.error NotionError.other : Except NotionError String)
          else Except.ok (pageName m.id))) = .error .other
  | [], mfail, bpost, _, hf => by
    simp [collectAll, hf]
  | x :: bpre, mfail, bpost, hpre, hf => by
    have hx : x.id ∉ db.failIds := hpre x (List.mem_cons_self _ _)
    have hrec := collectAll_fail_of db bpre mfail bpost
      (fun y hy => hpre y (List.mem_cons_of_mem _ hy)) hf
    simp [collectAll, hx, hf] at hrec ⊢
    rw [hrec]

/-- A clean sub-batch against a complete schema under the concurrent
schedule: one page per message, in order. -/
theorem runBatchConc_clean (db : NotionDB) (batch : List NotionMessage)
    (hcomplete : schemaComplete db.schema = true)
    (hclean : ∀ x ∈ batch, x.id ∉ db.failIds) :
    runBatchConc db batch =
      (.ok (batch.map (fun x => pageName x.id)),
       { db with created := db.created ++ createdOf db batch }) := by
  have hp1 := concPhase1_complete batch db hcomplete
  have houts : batch.map (fun m => (m,
      if m.id ∈ db.failIds then Except.error NotionError.other
      else Except.ok (pageName m.id))) =
      batch.map (fun m => (m, Except.ok (pageName m.id))) :=
    List.map_congr_left (fun x hx => by simp [hclean x hx])
  rw [houts] at hp1
  have hp2 := concPhase2_id
    (batch.map (fun m => (m, Except.ok (pageName m.id))))
    { db with created := db.created ++ createdOf db batch }
    (by
      intro p hp n
      obtain ⟨m, hm, rfl⟩ := List.mem_map.mp hp
      simp)
  simp only [runBatchConc, hp1, hp2]
  simp [List.map_map, Function.comp_def, collectAll_map_ok_of]

/-- A sub-batch containing a faulted entry, against a complete schema,
under the concurrent schedule: every non-faulted entry of the
sub-batch is created, and the sub-batch rejects with the generic
error of its first faulted member. -/
theorem runBatchConc_fail (db : NotionDB) (bpre : List NotionMessage)
    (mfail : NotionMessage) (bpost : List NotionMessage)
    (hcomplete : schemaComplete db.schema = true)
    (hpre : ∀ x ∈ bpre, x.id ∉ db.failIds)
    (hfail : mfail.id ∈ db.failIds) :
    runBatchConc db (bpre ++ mfail :: bpost) =
      (.error .other,
       { db with created :=
           db.created ++ createdOf db (bpre ++ mfail :: bpost) }) := by
  have hp1 := concPhase1_complete (bpre ++ mfail :: bpost) db hcomplete
  have hp2 := concPhase2_id
    ((bpre ++ mfail :: bpost).map (fun m => (m,
        if m.id ∈ db.failIds then Except.error NotionError.other
        else Except.ok (pageName m.id))))
    { db with created := db.created ++ createdOf db (bpre ++ mfail :: bpost) }
    (by
      intro p hp n
      obtain ⟨m, hm, rfl⟩ := List.mem_map.mp hp
      by_cases h : m.id ∈ db.failIds <;> simp [h])
  simp only [runBatchConc, hp1, hp2]
  have hc := collectAll_fail_of db bpre mfail bpost hpre hfail
  simp [List.map_map, Function.comp_def, hfail] at hc ⊢
  exact hc

/-- The batch loop under the concurrent schedule against a complete
schema, when the entry at position pre.length is the first faulted
one: the loop processes the sub-batches up to and including the one
containing that entry, creating every non-faulted entry of those
sub-batches, rejects with the generic error, and never touches any
later sub-batch. -/
theorem addMessagesGo_conc_fail :
    ∀ (n : Nat) (pre : List NotionMessage) (mfail : NotionMessage)
      (post : List NotionMessage) (db : NotionDB) (su : Bool)
      (pids : List String),
      pre.length ≤ n →
      schemaComplete db.schema = true →
      (∀ x ∈ pre, x.id ∉ db.failIds) →
      mfail.id ∈ db.failIds →
      addMessagesGo runBatchConc db (pre ++ mfail :: post) su pids =
        (.error .other,
         { db with created := db.created ++
             createdOf db ((pre ++ mfail :: post).take
               (10 * (pre.length / 10) + 10)) }) := by
  intro n
  induction n with
  | zero =>
    intro pre mfail post db su pids hlen hc hclean hm
    have hpre0 : pre = [] := List.length_eq_zero.mp (Nat.le_zero.mp hlen)
    subst hpre0
    have htake : (([] : List NotionMessage) ++ mfail :: post).take 10 =
        [] ++ mfail :: post.take 9 := by simp
    have hb := runBatchConc_fail db [] mfail (post.take 9) hc
      (by intro x hx; cases hx) hm
    rw [addMessagesGo_step_error_other runBatchConc db
      ([] ++ mfail :: post) su pids (by simp) _ (by rw [htake]; exact hb)]
    simp [htake]
  | succ n ih =>
    intro pre mfail post db su pids hlen hc hclean hm
    by_cases hlt : pre.length < 10
    · obtain ⟨k, hk⟩ : ∃ k, 10 - pre.length = k + 1 :=
        ⟨9 - pre.length, by omega⟩
      have htake : (pre ++ mfail :: post).take 10 =
          pre ++ mfail :: post.take k := by
        rw [List.take_append_eq_append_take,
          List.take_of_length_le (by omega), hk, List.take_succ_cons]
      have hb := runBatchConc_fail db pre mfail (post.take k) hc hclean hm
      rw [addMessagesGo_step_error_other runBatchConc db
        (pre ++ mfail :: post) su pids (by simp) _ (by rw [htake]; exact hb)]
      have hq0 : 10 * (pre.length / 10) + 10 = 10 := by omega
      rw [hq0, htake]
    · have hge : 10 ≤ pre.length := by omega
      have htake : (pre ++ mfail :: post).take 10 = pre.take 10 := by
        rw [List.take_append_eq_append_take, Nat.sub_eq_zero_of_le hge]
        simp
      have hdrop : (pre ++ mfail :: post).drop 10 =
          pre.drop 10 ++ mfail :: post := by
        rw [List.drop_append_eq_append_drop, Nat.sub_eq_zero_of_le hge]
        simp
      have hcleantake : ∀ x ∈ pre.take 10, x.id ∉ db.failIds :=
        fun x hx => hclean x (List.take_subset 10 pre hx)
      have hb := runBatchConc_clean db (pre.take 10) hc hcleantake
      rw [addMessagesGo_step_ok runBatchConc db (pre ++ mfail :: post) su
        pids (by simp) ((pre.take 10).map (fun x => pageName x.id))
        { db with created := db.created ++ createdOf db (pre.take 10) }
        (by rw [htake]; exact hb), hdrop]
      have hrec := ih (pre.drop 10) mfail post
        { db with created := db.created ++ createdOf db (pre.take 10) }
        su (pids ++ (pre.take 10).map (fun x => pageName x.id))
        (by simp only [List.length_drop]; omega) hc
        (fun x hx => hclean x (List.drop_subset 10 pre hx)) hm
      rw [hrec]
      have hsame : ∀ msgs : List NotionMessage,
          createdOf { db with created := db.created ++ createdOf db (pre.take 10) }
            msgs = createdOf db msgs := fun msgs => rfl
      have hq : 10 * (pre.length / 10) + 10 =
          10 + (10 * ((pre.drop 10).length / 10) + 10) := by
        simp only [List.length_drop]
        omega
      have htakeq : (pre ++ mfail :: post).take
          (10 * (pre.length / 10) + 10) =
          pre.take 10 ++ (pre.drop 10 ++ mfail :: post).take
            (10 * ((pre.drop 10).length / 10) + 10) := by
        rw [hq, List.take_add, htake, hdrop]
      rw [hsame, htakeq, createdOf_append]
      simp [List.append_assoc]

/-- Claim C3: when an entry creation fails with a non-schema error,
the whole addMessages call raises that error: the loop stops at the
sub-batch containing the first faulted entry, having created exactly
the non-faulted entries of the sub-batches up to and including that
one (the faulted entry itself is never created, so the failing
sub-batch ends up with fewer created entries than members, in
particular fewer than 10), and no later sub-batch is ever
processed. -/
theorem addMessages_nonschema_error_aborts
    (db : NotionDB) (pre : List NotionMessage) (mfail : NotionMessage)
    (post : List NotionMessage)
    (hcomplete : schemaComplete db.schema = true)
    (hpre : ∀ x ∈ pre, x.id ∉ db.failIds)
    (hfail : mfail.id ∈ db.failIds) :
    addMessages runBatchConc db (pre ++ mfail :: post) =
      (.error .other,
       { db with created := db.created ++
           createdOf db ((pre ++ mfail :: post).take
             (10 * (pre.length / 10) + 10)) }) ∧
    (createdOf db ((pre ++ mfail :: post).take
        (10 * (pre.length / 10) + 10))).length <
      ((pre ++ mfail :: post).take (10 * (pre.length / 10) + 10)).length := by
  refine ⟨addMessagesGo_conc_fail pre.length pre mfail post db false []
    (Nat.le_refl _) hcomplete hpre hfail, ?_⟩
  rw [createdOf, List.length_map, List.length_filter_lt_length_iff_exists]
  refine ⟨mfail, ?_, by simp [notFaulted, hfail]⟩
  rw [List.take_append_eq_append_take, List.take_of_length_le (by omega)]
  obtain ⟨k, hk⟩ : ∃ k, 10 * (pre.length / 10) + 10 - pre.length = k + 1 :=
    ⟨10 * (pre.length / 10) + 9 - pre.length, by omega⟩
  rw [hk, List.take_succ_cons]
  exact List.mem_append_right _ (List.mem_cons_self _ _)

theorem addMessages_nonschema_error_aborts_witness :
    (addMessages runBatchConc dbWithFault
        (preMsgs ++ mkMsg 5 :: postMsgs)).1 = .error .other ∧
    (addMessages runBatchConc dbWithFault
        (preMsgs ++ mkMsg 5 :: postMsgs)).2.created.length = 9 ∧
    (preMsgs ++ mkMsg 5 :: postMsgs).length = 20 := by
  have h := addMessages_nonschema_error_aborts dbWithFault preMsgs (mkMsg 5)
    postMsgs (by decide) (by decide) (by decide)
  rw [h.1]
  exact ⟨rfl, by decide, by decide⟩

/-- A schema missing only the Content property. -/
def schemaMissingContent : SchemaProps :=
  [("Message", PropType.title),
   ("Sender", PropType.richText),
   ("Chat", PropType.richText),
   ("Date", PropType.date),
   ("Direction", PropType.select ["Incoming", "Outgoing"]),
   ("Message ID", PropType.number),
   ("Media Type", PropType.richText),
   ("Chat ID", PropType.richText)]

def dbMissingContent : NotionDB :=
  { schema := schemaMissingContent, failIds := [], created := [],
    reconcileCalls := 0, updateCalls := 0 }

/-- The property bag the repaired schema produces for mkMsg i. -/
def repairedProps (i : Int) : List (String × PropValue) :=
  [("Message", PropValue.titleVal "m"),
   ("Content", PropValue.richTextVal "m"),
   ("Sender", PropValue.richTextVal "s"),
   ("Chat", PropValue.richTextVal "c"),
   ("Date", PropValue.dateVal 0),
   ("Direction", PropValue.selectVal "Incoming"),
   ("Message ID", PropValue.numberVal i)]

def dbAfterConc : NotionDB :=
  { schema := schemaMissingContent ++ [("Content", PropType.richText)],
    failIds := [], created := [repairedProps 1, repairedProps 2],
    reconcileCalls := 2, updateCalls := 1 }

/-- Claim C1 counterexample: with a schema missing the Content property
and one sub-batch of two messages, the concurrent Promise.all schedule
of addMessages invokes ensureDatabaseSchema twice within the single
call: both initial creates fail against the old schema and each
rejection handler then performs its own reconciliation inside
addMessage, which the run-wide schemaUpdated flag does not guard. -/
theorem addMessages_concurrent_double_reconcile :
    (addMessages runBatchConc dbMissingContent
        [mkMsg 1, mkMsg 2]).2.reconcileCalls = 2 ∧
    ¬ ((addMessages runBatchConc dbMissingContent
        [mkMsg 1, mkMsg 2]).2.reconcileCalls ≤ 1) := by
  have hconc : runBatchConc dbMissingContent ([mkMsg 1, mkMsg 2].take 10) =
      (.ok ["page-1", "page-2"], dbAfterConc) := by rfl
  have h := addMessagesGo_one_ok runBatchConc dbMissingContent
    [mkMsg 1, mkMsg 2] false [] (by simp) ["page-1", "page-2"]
    dbAfterConc hconc rfl
  unfold addMessages
  rw [h]
  exact ⟨rfl, by decide⟩

/-- Claim C1 amended: under a sequential execution of the sub-batch
creates, an addMessages call reconciles the schema at most once in
total; under the concurrent sub-batch schedule each failing entry may
reconcile on its own, so the run-wide flag bounds only the batch-level
handler, not the per-entry repairs. -/
theorem addMessages_sequential_reconcile_at_most_once
    (db : NotionDB) (messages : List NotionMessage) :
    (addMessages runBatchSeq db messages).2.reconcileCalls ≤
      db.reconcileCalls + 1 := by
  have h := addMessagesGo_seq_bound messages.length messages (Nat.le_refl _)
    db false []
  unfold addMessages
  split at h <;> omega

end TelegramToNotion
